import Mathlib

/-!
Verification of the RayMarcher renderer (`RayMarcher.cpp`, `MathClasses.h`)
against its natural-language specification.

The embedding translates the C++ source into Lean definitions:

* `real32` values are modelled as exact rationals `ℚ` (reals `ℝ` where a
  square root is required), the usual idealisation of IEEE floats for
  algorithmic specifications; divisions by zero that produce IEEE
  infinities are modelled explicitly where they occur (`MarchShadowRay`).
* virtual dispatch on `CRenderObject::GetDistanceToPoint` is modelled by a
  function field (the source's `CRenderCustom` shows the distance function
  is an arbitrary `point → scalar` function);
* the two unbounded `while` loops (`MarchRay`, `MarchShadowRay`) are
  modelled with explicit fuel returning `Option`, and termination is proved
  as a theorem about sufficient fuel;
* the renderer's mutable state is modelled by explicit state passing.
-/

namespace RayMarcher

/-- Tunable constant `skMinLength = 0.0001f` (`MIN_STEP`). -/
def skMinLength : ℚ := 1 / 10000

/-- Constant `skMaxLength = 60.f`. -/
def skMaxLength : ℚ := 60

/-- Constant `skLargeNumber = 1e12f`. -/
def skLargeNumber : ℚ := 1000000000000

/-- `CVector3f` over exact rationals. -/
structure Vec3 where
  x : ℚ
  y : ℚ
  z : ℚ
  deriving DecidableEq

namespace Vec3

/-- `CVector3f::Zero()`. -/
def zero : Vec3 := ⟨0, 0, 0⟩

/-- `CVector3f::DotProductWith` (the scalar-arithmetic form). -/
def dot (a b : Vec3) : ℚ := a.x * b.x + a.y * b.y + a.z * b.z

/-- Component-wise vector negation, `CVector3f::operator-()`. -/
def neg (a : Vec3) : Vec3 := ⟨-a.x, -a.y, -a.z⟩

/-- `CVector3f::operator+`. -/
def add (a b : Vec3) : Vec3 := ⟨a.x + b.x, a.y + b.y, a.z + b.z⟩

/-- `CVector3f::operator*(real32)`. -/
def smul (a : Vec3) (s : ℚ) : Vec3 := ⟨a.x * s, a.y * s, a.z * s⟩

end Vec3

/-- `CColor4f` (red, green, blue as floats). -/
structure Color where
  red : ℚ
  green : ℚ
  blue : ℚ
  deriving DecidableEq

namespace Color

/-- `CColor4f::Black()`. -/
def black : Color := ⟨0, 0, 0⟩

/-- `CColor4f::White()`. -/
def white : Color := ⟨1, 1, 1⟩

/-- `CColor4f::operator*(real32)`. -/
def smul (c : Color) (s : ℚ) : Color := ⟨c.red * s, c.green * s, c.blue * s⟩

end Color

/-- `CTransform4f`: a 3×4 affine matrix (rotation/scale block plus
translation column). -/
structure Transform where
  m00 : ℚ
  m01 : ℚ
  m02 : ℚ
  m03 : ℚ
  m10 : ℚ
  m11 : ℚ
  m12 : ℚ
  m13 : ℚ
  m20 : ℚ
  m21 : ℚ
  m22 : ℚ
  m23 : ℚ
  deriving DecidableEq

namespace Transform

/-- `CTransform4f::Identity()`. -/
def identity : Transform := ⟨1, 0, 0, 0, 0, 1, 0, 0, 0, 0, 1, 0⟩

/-- `CTransform4f::operator*(CVector3f)` (the scalar-arithmetic form):
apply the affine transform to a point. -/
def apply (t : Transform) (v : Vec3) : Vec3 :=
  ⟨t.m00 * v.x + t.m01 * v.y + t.m02 * v.z + t.m03,
   t.m10 * v.x + t.m11 * v.y + t.m12 * v.z + t.m13,
   t.m20 * v.x + t.m21 * v.y + t.m22 * v.z + t.m23⟩

/-- `CTransform4f::Translate(x, y, z)`. -/
def translate (x y z : ℚ) : Transform := ⟨1, 0, 0, x, 0, 1, 0, y, 0, 0, 1, z⟩

end Transform

/-- `CRenderObject`: the virtual method `GetDistanceToPoint` is modelled
as a function field (the subclass `CRenderCustom` wraps an arbitrary
`std::function<real32(CVector3f)>`, and every other subclass is an
instance), together with the cached inverse transform used by
`GetTransformedDistanceToPoint`. -/
structure RenderObject where
  dist : Vec3 → ℚ
  inverseTransform : Transform

namespace RenderObject

/-- `CRenderObject::GetTransformedDistanceToPoint`: evaluate
`GetDistanceToPoint` at the inverse-transformed point. -/
def GetTransformedDistanceToPoint (o : RenderObject) (point : Vec3) : ℚ :=
  o.dist (o.inverseTransform.apply point)

end RenderObject

/-- `CRenderSphere::GetDistanceToPoint` is `|point − center| − radius`;
here only the square of the magnitude is needed for concrete instances, so
spheres do not appear as a named definition; distance functions of claims
are arbitrary `RenderObject.dist` fields. -/
def planeDistance (normal : Vec3) (height : ℚ) (point : Vec3) : ℚ :=
  Vec3.dot normal point - height

/-! ## C1 — directional light -/

/-- `CDirectionalLightObject` state: the constructor stores the normalized
direction (`mDirection = direction.AsNormalized()`) and the color. The
claims quantify over lights whose stored direction is unit, so the stored
direction is taken directly as state. -/
structure CDirectionalLightObject where
  mDirection : Vec3
  mColor : Color

namespace CDirectionalLightObject

/-- `CDirectionalLightObject::CalculateValueAtPosition`: the angle is the
dot product of the surface normal with the *stored* direction (no
negation in the source), black when the angle is negative, otherwise
`mColor * angle`. -/
def CalculateValueAtPosition (L : CDirectionalLightObject)
    (surfaceNormal : Vec3) : Color :=
  let angle := Vec3.dot surfaceNormal L.mDirection
  if angle < 0 then Color.black else L.mColor.smul angle

/-- `CastsShadow` for directional lights is `false` in the source. -/
def CastsShadow (_ : CDirectionalLightObject) : Bool := false

end CDirectionalLightObject

/-- The contribution formula as the spec words it (claim C1): the angle is
taken against the *negated* stored direction, black when `≤ 0`. -/
def directionalSpecContribution (L : CDirectionalLightObject)
    (surfaceNormal : Vec3) : Color :=
  let angle := Vec3.dot surfaceNormal (Vec3.neg L.mDirection)
  if angle ≤ 0 then Color.black else L.mColor.smul angle

/-- C1 counterexample: a directional light with stored unit direction
`(0,0,1)` and color white, evaluated at the unit normal `(0,0,1)`:
the code returns white (`n · dir = 1`), while the claimed formula
`n · (−dir) = −1 ≤ 0` returns black. -/
theorem C1_counterexample :
    Vec3.dot ⟨0, 0, 1⟩ ⟨0, 0, 1⟩ = 1 ∧
    CDirectionalLightObject.CalculateValueAtPosition ⟨⟨0, 0, 1⟩, Color.white⟩ ⟨0, 0, 1⟩
      = Color.white ∧
    directionalSpecContribution ⟨⟨0, 0, 1⟩, Color.white⟩ ⟨0, 0, 1⟩ = Color.black := by
  refine ⟨?_, ?_, ?_⟩ <;>
    simp [CDirectionalLightObject.CalculateValueAtPosition,
      directionalSpecContribution, Vec3.dot, Vec3.neg, Color.smul,
      Color.black, Color.white]

/-- C1 (amended): for every directional light with stored unit direction
and every unit surface normal, the contribution is black when
`n · dir_unit ≤ 0` and `color · (n · dir_unit)` otherwise — the angle is
taken against the stored direction itself, not its negation (at
`n · dir_unit = 0` both branches coincide since `color · 0` is black). -/
theorem C1_directional_light_contribution (L : CDirectionalLightObject)
    (n : Vec3) (_hdir : Vec3.dot L.mDirection L.mDirection = 1)
    (_hn : Vec3.dot n n = 1) :
    L.CalculateValueAtPosition n =
      (if Vec3.dot n L.mDirection ≤ 0 then Color.black
       else L.mColor.smul (Vec3.dot n L.mDirection)) := by
  unfold CDirectionalLightObject.CalculateValueAtPosition
  rcases lt_trichotomy (Vec3.dot n L.mDirection) 0 with h | h | h
  · simp [h, le_of_lt h]
  · simp [h, Color.smul, Color.black]
  · simp [not_lt.mpr (le_of_lt h), not_le.mpr h]

/-- C1 witness: the amended theorem applied to the concrete unit
direction `(0,0,1)`, color white and unit normal `(1,0,0)` (grazing
incidence, `n · dir = 0`, black). -/
theorem C1_witness :
    Vec3.dot (⟨0, 0, 1⟩ : Vec3) ⟨0, 0, 1⟩ = 1 ∧
    CDirectionalLightObject.CalculateValueAtPosition ⟨⟨0, 0, 1⟩, Color.white⟩ ⟨1, 0, 0⟩
      = Color.black :=
  ⟨by simp [Vec3.dot], by
    have h := C1_directional_light_contribution ⟨⟨0, 0, 1⟩, Color.white⟩
      ⟨1, 0, 0⟩ (by simp [Vec3.dot]) (by simp [Vec3.dot])
    rw [h]; simp [Vec3.dot]⟩

/-! ## C2 — Difference composite -/

/-- The loop of `CRenderDifference::GetDistanceToPoint`: `maxValue` starts
at `0.f`, and each child contributes `(index++ ? -1.f : 1.f) *
GetTransformedDistanceToPoint(point)` folded through `max_val`. -/
def differenceFold (point : Vec3) : ℚ → ℕ → List RenderObject → ℚ
  | maxValue, _, [] => maxValue
  | maxValue, index, o :: rest =>
      differenceFold point
        (max maxValue
          ((if index = 0 then (1 : ℚ) else -1) * o.GetTransformedDistanceToPoint point))
        (index + 1) rest

/-- `CRenderDifference::GetDistanceToPoint`. -/
def CRenderDifference.GetDistanceToPoint (children : List RenderObject)
    (point : Vec3) : ℚ :=
  differenceFold point 0 0 children

/-- The signed child distances named by the spec's Difference formula:
`d₀, −d₁, −d₂, …` (first child positive, the rest negated). -/
def differenceSignedDistances (children : List RenderObject) (point : Vec3) : List ℚ :=
  match children with
  | [] => []
  | c :: rest =>
      c.GetTransformedDistanceToPoint point ::
        rest.map fun o => -(o.GetTransformedDistanceToPoint point)

/-- The Difference distance exactly as claim C2 words it:
`max(d₀, −d₁, −d₂, …, −dₙ)` with no other term in the maximum. -/
def differenceSpecDistance (children : List RenderObject) (point : Vec3) : ℚ :=
  match children with
  | [] => 0
  | c :: rest =>
      List.foldl max (c.GetTransformedDistanceToPoint point)
        (rest.map fun o => -(o.GetTransformedDistanceToPoint point))

/-- C2 counterexample: a Difference with the single child
`Custom(fun _ => −2)` (identity transform) at the origin. The claimed
formula gives `max(d₀) = −2`, but the code's fold is seeded with `0` and
returns `0`. -/
theorem C2_counterexample :
    CRenderDifference.GetDistanceToPoint
        [⟨fun _ => -2, Transform.identity⟩] Vec3.zero = 0 ∧
    differenceSpecDistance [⟨fun _ => -2, Transform.identity⟩] Vec3.zero = -2 := by
  constructor <;>
    norm_num [CRenderDifference.GetDistanceToPoint, differenceFold,
      differenceSpecDistance, RenderObject.GetTransformedDistanceToPoint,
      Transform.apply, Transform.identity, Vec3.zero]

theorem differenceFold_of_ne_zero (point : Vec3) (l : List RenderObject) :
    ∀ (acc : ℚ) (i : ℕ), i ≠ 0 →
      differenceFold point acc i l =
        List.foldl (fun a o => max a (-(o.GetTransformedDistanceToPoint point))) acc l := by
  induction l with
  | nil => intro acc i _; rfl
  | cons o rest ih =>
      intro acc i hi
      simp only [differenceFold, if_neg hi, List.foldl_cons, neg_one_mul]
      exact ih _ (i + 1) (Nat.succ_ne_zero i)

/-- C2 (amended): the Difference distance equals
`max(0, d₀, −d₁, −d₂, …, −dₙ)` — the fold over the signed child distances
is additionally seeded with `0`, exactly like the Intersection fold. -/
theorem C2_difference_distance (children : List RenderObject) (point : Vec3) :
    CRenderDifference.GetDistanceToPoint children point =
      List.foldl max 0 (differenceSignedDistances children point) := by
  cases children with
  | nil => rfl
  | cons c rest =>
      simp only [CRenderDifference.GetDistanceToPoint, differenceFold,
        if_pos rfl, if_true, eq_self_iff_true, one_mul, zero_add,
        differenceSignedDistances, List.foldl_cons, List.foldl_map]
      exact differenceFold_of_ne_zero point rest _ 1 Nat.one_ne_zero

/-! ## C3 — Intersection composite -/

/-- `CRenderIntersection::GetDistanceToPoint`: `maxValue` starts at `0.f`
and each child's transformed distance is folded through `max_val`. -/
def CRenderIntersection.GetDistanceToPoint (children : List RenderObject)
    (point : Vec3) : ℚ :=
  List.foldl
    (fun maxValue o => max maxValue (o.GetTransformedDistanceToPoint point))
    0 children

theorem foldl_max_le_self (l : List ℚ) : ∀ a : ℚ, a ≤ List.foldl max a l := by
  induction l with
  | nil => intro a; simp
  | cons x rest ih =>
      intro a
      exact le_trans (le_max_left a x) (ih (max a x))

/-- C3: the Intersection distance is the fold of `max` over the children's
transformed distances seeded with `0`, and is therefore never negative,
also when the point is inside every child. -/
theorem C3_intersection_distance (children : List RenderObject) (point : Vec3) :
    CRenderIntersection.GetDistanceToPoint children point =
      List.foldl max 0
        (children.map fun o => o.GetTransformedDistanceToPoint point) ∧
    0 ≤ CRenderIntersection.GetDistanceToPoint children point := by
  have h : CRenderIntersection.GetDistanceToPoint children point =
      List.foldl max 0
        (children.map fun o => o.GetTransformedDistanceToPoint point) := by
    unfold CRenderIntersection.GetDistanceToPoint
    rw [List.foldl_map]
  refine ⟨h, ?_⟩
  rw [h]
  exact foldl_max_le_self _ 0

/-! ## C5 — Blend composite -/

/-- `NMath::lerp`. -/
def lerp (a b t : ℚ) : ℚ := a + (b - a) * t

/-- `CRenderBlend` state: the child list, the blend factor `mK`, and the
cached inverse transform inherited from `CRenderObject` (used *inside*
`GetDistanceToPoint`, unlike the other composites). -/
structure CRenderBlend where
  mObjectList : List RenderObject
  mK : ℚ
  inverseTransform : Transform

/-- `CRenderBlend::GetDistanceToPoint`.
`lowerPosition = static_cast<uint32_t>(floorf(mK))` is modelled as
`⌊mK⌋.toNat`, faithful for `mK ≥ 0` (the spec's assumed domain; for
negative `mK` the float→unsigned conversion in the source wraps, as the
spec's open question 2 records, and the theorems below carry the
`0 ≤ mK` hypothesis). The source's bounds guard
`pos >= 0 && pos < mObjectList.size()` with out-of-range fallback
`skLargeNumber` is the `getElem?` match. Note the source applies the
composite's own `GetInverseTransform()` to the point before handing it to
the child's `GetTransformedDistanceToPoint`. -/
def CRenderBlend.GetDistanceToPoint (B : CRenderBlend) (point : Vec3) : ℚ :=
  lerp
    (match B.mObjectList[(Int.floor B.mK).toNat]? with
     | some o => o.GetTransformedDistanceToPoint (B.inverseTransform.apply point)
     | none => skLargeNumber)
    (match B.mObjectList[(Int.floor B.mK).toNat + 1]? with
     | some o => o.GetTransformedDistanceToPoint (B.inverseTransform.apply point)
     | none => skLargeNumber)
    (B.mK - Int.floor B.mK)

/-- The Blend distance exactly as claim C5 words it: `i = ⌊k⌋`,
`j = i + 1`, `t = k − i`, `d_i`/`d_j` the transformed distances of
children `i`/`j` at the given point (each with its own transform), the
sentinel `1e12` for indices outside `[0, n)`. -/
def blendClaimDistance (B : CRenderBlend) (point : Vec3) : ℚ :=
  lerp
    (match (if 0 ≤ Int.floor B.mK
            then B.mObjectList[(Int.floor B.mK).toNat]? else none) with
     | some o => o.GetTransformedDistanceToPoint point
     | none => skLargeNumber)
    (match (if 0 ≤ Int.floor B.mK + 1
            then B.mObjectList[(Int.floor B.mK + 1).toNat]? else none) with
     | some o => o.GetTransformedDistanceToPoint point
     | none => skLargeNumber)
    (B.mK - Int.floor B.mK)

/-- The claim's formula amended: `d_i` and `d_j` are evaluated at the
composite's inverse transform applied to the point. -/
def blendAmendedDistance (B : CRenderBlend) (point : Vec3) : ℚ :=
  lerp
    (match (if 0 ≤ Int.floor B.mK
            then B.mObjectList[(Int.floor B.mK).toNat]? else none) with
     | some o => o.GetTransformedDistanceToPoint (B.inverseTransform.apply point)
     | none => skLargeNumber)
    (match (if 0 ≤ Int.floor B.mK + 1
            then B.mObjectList[(Int.floor B.mK + 1).toNat]? else none) with
     | some o => o.GetTransformedDistanceToPoint (B.inverseTransform.apply point)
     | none => skLargeNumber)
    (B.mK - Int.floor B.mK)

/-- C5 counterexample: a Blend with `k = 0`, a single child
`Custom(fun p => p.x)` with identity transform, and composite inverse
transform `Translate(1,0,0)`, at the origin. The code evaluates the child
at the composite-inverse-transformed point `(1,0,0)` and returns `1`; the
claimed formula evaluates the child at the origin and returns `0`. -/
theorem C5_counterexample :
    CRenderBlend.GetDistanceToPoint
        ⟨[⟨fun p => p.x, Transform.identity⟩], 0, Transform.translate 1 0 0⟩
        Vec3.zero = 1 ∧
    blendClaimDistance
        ⟨[⟨fun p => p.x, Transform.identity⟩], 0, Transform.translate 1 0 0⟩
        Vec3.zero = 0 := by
  constructor <;>
    norm_num [CRenderBlend.GetDistanceToPoint, blendClaimDistance, lerp,
      RenderObject.GetTransformedDistanceToPoint, Transform.apply,
      Transform.identity, Transform.translate, Vec3.zero, skLargeNumber]

/-- C5 (amended): for `k ≥ 0`, the Blend distance equals
`lerp(d_i, d_j, k − ⌊k⌋)` with `i = ⌊k⌋`, `j = i + 1`, with the sentinel
`1e12` for indices outside `[0, n)`, where `d_i` and `d_j` are the
children's transformed distances evaluated at the composite's own
inverse transform applied to the point (applied in addition to each
child's inverse transform). -/
theorem C5_blend_distance (B : CRenderBlend) (point : Vec3) (hk : 0 ≤ B.mK) :
    B.GetDistanceToPoint point = blendAmendedDistance B point := by
  have h0 : 0 ≤ Int.floor B.mK := Int.floor_nonneg.mpr hk
  have h1 : (Int.floor B.mK + 1).toNat = (Int.floor B.mK).toNat + 1 := by omega
  unfold CRenderBlend.GetDistanceToPoint blendAmendedDistance
  rw [if_pos h0, if_pos (by omega : 0 ≤ Int.floor B.mK + 1), h1]

/-- C5 witness: the amended theorem at a concrete Blend (`k = 1/2`, two
custom children, a translation as the composite inverse transform). -/
theorem C5_witness :
    (0 : ℚ) ≤ (1 : ℚ) / 2 ∧
    CRenderBlend.GetDistanceToPoint
        ⟨[⟨fun p => p.x, Transform.identity⟩, ⟨fun p => p.y, Transform.identity⟩],
         1 / 2, Transform.translate 1 0 0⟩ Vec3.zero =
      blendAmendedDistance
        ⟨[⟨fun p => p.x, Transform.identity⟩, ⟨fun p => p.y, Transform.identity⟩],
         1 / 2, Transform.translate 1 0 0⟩ Vec3.zero :=
  ⟨by norm_num, C5_blend_distance _ _ (by norm_num)⟩

/-! ## C4 — primary-ray march -/

/-- `CInfiniteRay`. -/
structure CInfiniteRay where
  mPosition : Vec3
  mDirection : Vec3

/-- `CInfiniteRay::GetPositionAlongRay`. -/
def CInfiniteRay.GetPositionAlongRay (r : CInfiniteRay) (time : ℚ) : Vec3 :=
  r.mPosition.add (r.mDirection.smul time)

/-- `CRayResult`. -/
structure CRayResult where
  mCollisionPoint : Vec3
  mTime : ℚ
  mHit : Bool
  deriving DecidableEq

/-- `CRenderScene::GetMinDistanceAtPoint`: the minimum over the scene's
top-level objects of their transformed distances, seeded with
`skLargeNumber`. -/
def GetMinDistanceAtPoint (objects : List RenderObject) (point : Vec3) : ℚ :=
  List.foldl (fun time o => min time (o.GetTransformedDistanceToPoint point))
    skLargeNumber objects

/-- The `while` loop of `CRenderScene::MarchRay`, with explicit fuel (one
unit per loop-condition check). State: `time` (advanced by the scene
distance), `count` (the step counter; the source's `count++ > 200`
compares before incrementing), `minDistance` (updated with `min` before
the hit test and reported in the `mTime` field of a miss). -/
def marchRayAux (objects : List RenderObject) (ray : CInfiniteRay)
    (maxLength : ℚ) : ℕ → ℚ → ℕ → ℚ → Option CRayResult
  | 0, _, _, _ => none
  | fuel + 1, time, count, minDistance =>
    if time < maxLength then
      if |GetMinDistanceAtPoint objects (ray.GetPositionAlongRay time)| < skMinLength
          ∨ 200 < count then
        some ⟨ray.GetPositionAlongRay time, time, true⟩
      else
        marchRayAux objects ray maxLength fuel
          (time + GetMinDistanceAtPoint objects (ray.GetPositionAlongRay time))
          (count + 1)
          (min minDistance
            (GetMinDistanceAtPoint objects (ray.GetPositionAlongRay time)))
    else
      some ⟨Vec3.zero, minDistance, false⟩

/-- `CRenderScene::MarchRay`: `time` starts at `skMinLength`, `count` at
`0`, `minDistance` at `skLargeNumber`. `fuel` is the modelling bound on
loop iterations; the C4 theorem shows `202` always suffices. -/
def CRenderScene.MarchRay (objects : List RenderObject) (ray : CInfiniteRay)
    (maxLength : ℚ) (fuel : ℕ) : Option CRayResult :=
  marchRayAux objects ray maxLength fuel skMinLength 0 skLargeNumber

theorem marchRayAux_isSome (objects : List RenderObject) (ray : CInfiniteRay)
    (maxLength : ℚ) :
    ∀ (fuel count : ℕ) (time minDistance : ℚ), 201 - count < fuel →
      (marchRayAux objects ray maxLength fuel time count minDistance).isSome := by
  intro fuel
  induction fuel with
  | zero => intro count time minDistance h; omega
  | succ f ih =>
      intro count time minDistance h
      rw [marchRayAux]
      split
      · split
        · rfl
        · rename_i hcond
          have hcount : count ≤ 200 := by
            by_contra hc
            exact hcond (Or.inr (by omega))
          exact ih (count + 1) _ _ (by omega)
      · rfl

/-- C4: the primary-ray march terminates for every scene, ray and
maximum length — 202 loop iterations of fuel always produce a result —
and each loop iteration either returns a hit (when the absolute scene
distance is below `skMinLength` or the step counter exceeds 200),
advances `time` by the current scene distance, or exits as a miss as soon
as `time` is no longer below `maxLength`. -/
theorem C4_march_ray_terminates (objects : List RenderObject)
    (ray : CInfiniteRay) (maxLength : ℚ) :
    (CRenderScene.MarchRay objects ray maxLength 202).isSome ∧
    (∀ (fuel count : ℕ) (time minDistance : ℚ), ¬ time < maxLength →
      marchRayAux objects ray maxLength (fuel + 1) time count minDistance =
        some ⟨Vec3.zero, minDistance, false⟩) ∧
    (∀ (fuel count : ℕ) (time minDistance : ℚ), time < maxLength →
      (|GetMinDistanceAtPoint objects (ray.GetPositionAlongRay time)| < skMinLength
        ∨ 200 < count) →
      marchRayAux objects ray maxLength (fuel + 1) time count minDistance =
        some ⟨ray.GetPositionAlongRay time, time, true⟩) ∧
    (∀ (fuel count : ℕ) (time minDistance : ℚ), time < maxLength →
      ¬ (|GetMinDistanceAtPoint objects (ray.GetPositionAlongRay time)| < skMinLength
        ∨ 200 < count) →
      marchRayAux objects ray maxLength (fuel + 1) time count minDistance =
        marchRayAux objects ray maxLength fuel
          (time + GetMinDistanceAtPoint objects (ray.GetPositionAlongRay time))
          (count + 1)
          (min minDistance
            (GetMinDistanceAtPoint objects (ray.GetPositionAlongRay time)))) := by
  refine ⟨marchRayAux_isSome objects ray maxLength 202 0 _ _ (by omega), ?_, ?_, ?_⟩
  · intro fuel count time minDistance h
    rw [marchRayAux, if_neg h]
  · intro fuel count time minDistance h1 h2
    rw [marchRayAux, if_pos h1, if_pos h2]
  · intro fuel count time minDistance h1 h2
    rw [marchRayAux, if_pos h1, if_neg h2]

/-- C4 witness: at the empty scene and the ray from the origin along
`(0,0,1)` with `maxLength = 60`, the march with fuel 202 yields a
result; at `time = 60` the loop exits as a miss carrying `minDistance`;
and with step counter 300 (> 200) the loop returns a hit at once. -/
theorem C4_witness :
    (CRenderScene.MarchRay [] ⟨Vec3.zero, ⟨0, 0, 1⟩⟩ 60 202).isSome ∧
    marchRayAux [] ⟨Vec3.zero, ⟨0, 0, 1⟩⟩ 60 1 60 0 skLargeNumber =
      some ⟨Vec3.zero, skLargeNumber, false⟩ ∧
    marchRayAux [] ⟨Vec3.zero, ⟨0, 0, 1⟩⟩ 60 1 0 300 skLargeNumber =
      some ⟨CInfiniteRay.GetPositionAlongRay ⟨Vec3.zero, ⟨0, 0, 1⟩⟩ 0, 0, true⟩ := by
  obtain ⟨h1, h2, h3, _⟩ := C4_march_ray_terminates [] ⟨Vec3.zero, ⟨0, 0, 1⟩⟩ 60
  exact ⟨h1, h2 0 0 60 skLargeNumber (by norm_num),
    h3 0 300 0 skLargeNumber (by norm_num) (Or.inr (by norm_num))⟩

/-! ## C6 — soft-shadow march -/

/-- The `while` loop of `CRenderScene::MarchShadowRay`, with explicit
fuel. The source's update is
`shadow = min_val(shadow, penumbra * d / time)`; on the first iteration
`time = 0` and the float division produces `+∞` (its dividend
`penumbra * d` is positive wherever the update runs: `d ≥ skMinLength`
past the early return, and `penumbra > 0` both in the claim and at the
only call site, which passes `24`), so `min_val` leaves `shadow`
unchanged; the model writes that `time = 0` case out explicitly. -/
def marchShadowAux (objects : List RenderObject) (ray : CInfiniteRay)
    (maxLength penumbra : ℚ) : ℕ → ℚ → ℚ → Option ℚ
  | 0, _, _ => none
  | fuel + 1, time, shadow =>
    if time < maxLength then
      if GetMinDistanceAtPoint objects (ray.GetPositionAlongRay time) < skMinLength then
        some 0
      else
        marchShadowAux objects ray maxLength penumbra fuel
          (time + GetMinDistanceAtPoint objects (ray.GetPositionAlongRay time))
          (if time = 0 then shadow
           else min shadow
             (penumbra * GetMinDistanceAtPoint objects (ray.GetPositionAlongRay time)
               / time))
    else
      some shadow

/-- `CRenderScene::MarchShadowRay`: `shadow` starts at `1`, `time` at
`0`. -/
def CRenderScene.MarchShadowRay (objects : List RenderObject)
    (ray : CInfiniteRay) (maxLength penumbra : ℚ) (fuel : ℕ) : Option ℚ :=
  marchShadowAux objects ray maxLength penumbra fuel 0 1

theorem marchShadowAux_mem_Icc (objects : List RenderObject)
    (ray : CInfiniteRay) (maxLength penumbra : ℚ) (hp : 0 < penumbra) :
    ∀ (fuel : ℕ) (time shadow s : ℚ), 0 ≤ time → 0 ≤ shadow → shadow ≤ 1 →
      marchShadowAux objects ray maxLength penumbra fuel time shadow = some s →
      0 ≤ s ∧ s ≤ 1 := by
  intro fuel
  induction fuel with
  | zero => intro time shadow s _ _ _ h; exact absurd h (by simp [marchShadowAux])
  | succ f ih =>
      intro time shadow s ht h0 h1 h
      rw [marchShadowAux] at h
      split at h
      · split at h
        · cases h
          exact ⟨le_refl 0, by norm_num⟩
        · rename_i hd
          have hd' : skMinLength ≤
              GetMinDistanceAtPoint objects (ray.GetPositionAlongRay time) :=
            not_lt.mp hd
          have hdpos : 0 ≤
              GetMinDistanceAtPoint objects (ray.GetPositionAlongRay time) :=
            le_trans (by norm_num [skMinLength]) hd'
          refine ih _ _ s (by linarith) ?_ ?_ h
          · split
            · exact h0
            · rename_i htz
              have htpos : 0 < time := lt_of_le_of_ne ht (Ne.symm htz)
              exact le_min h0 (div_nonneg (mul_nonneg hp.le hdpos) htpos.le)
          · split
            · exact h1
            · exact le_trans (min_le_left _ _) h1
      · cases h
        exact ⟨h0, h1⟩

/-- The clearance condition of claim C6 along exactly the points the
shadow march samples, following the march's own recursion: at each
sampled `time` below `maxLength`, the scene distance stays at or above
`skMinLength` (so the march is never occluded and runs on to
`maxLength`), and the quotient `penumbra·d/time` never falls below `1` —
at the first sample `time = 0` that quotient is the IEEE `+∞`, so the
`time = 0` disjunct holds there; for `time > 0` the disjunct
`time ≤ penumbra·d` is `penumbra·d/time ≥ 1`. Between samples the scene
is unconstrained. -/
def shadowClearAlong (objects : List RenderObject) (ray : CInfiniteRay)
    (maxLength penumbra : ℚ) : ℕ → ℚ → Prop
  | 0, _ => True
  | fuel + 1, time =>
    time < maxLength →
      skMinLength ≤ GetMinDistanceAtPoint objects (ray.GetPositionAlongRay time) ∧
      (time = 0 ∨
        time ≤ penumbra * GetMinDistanceAtPoint objects (ray.GetPositionAlongRay time)) ∧
      shadowClearAlong objects ray maxLength penumbra fuel
        (time + GetMinDistanceAtPoint objects (ray.GetPositionAlongRay time))

theorem marchShadowAux_clear_eq_one (objects : List RenderObject)
    (ray : CInfiniteRay) (maxLength penumbra : ℚ) :
    ∀ (fuel : ℕ) (time s : ℚ), 0 ≤ time →
      shadowClearAlong objects ray maxLength penumbra fuel time →
      marchShadowAux objects ray maxLength penumbra fuel time 1 = some s →
      s = 1 := by
  intro fuel
  induction fuel with
  | zero =>
      intro time s _ _ h
      exact absurd h (by simp [marchShadowAux])
  | succ f ih =>
      intro time s ht hclear h
      rw [marchShadowAux] at h
      by_cases htm : time < maxLength
      · rw [if_pos htm] at h
        obtain ⟨hd, hq, hrest⟩ := hclear htm
        rw [if_neg (not_lt.mpr hd)] at h
        have hupd : (if time = 0 then (1 : ℚ)
            else min 1
              (penumbra * GetMinDistanceAtPoint objects (ray.GetPositionAlongRay time)
                / time)) = 1 := by
          split
          · rfl
          · rename_i htz
            have htpos : 0 < time := lt_of_le_of_ne ht (Ne.symm htz)
            have hq' := hq.resolve_left htz
            rw [min_eq_left ((le_div_iff₀ htpos).mpr (by linarith))]
        rw [hupd] at h
        have hms : (0 : ℚ) < skMinLength := by norm_num [skMinLength]
        exact ih _ s (by linarith) hrest h
      · rw [if_neg htm] at h
        cases h
        rfl

theorem marchShadowAux_clear_terminates (objects : List RenderObject)
    (ray : CInfiniteRay) (maxLength penumbra : ℚ) :
    ∀ (fuel : ℕ) (time : ℚ), 0 ≤ time → time < maxLength →
      shadowClearAlong objects ray maxLength penumbra fuel time →
      maxLength + skMinLength ≤ time + (fuel : ℚ) * skMinLength →
      marchShadowAux objects ray maxLength penumbra fuel time 1 = some 1 := by
  have hms : (0 : ℚ) < skMinLength := by norm_num [skMinLength]
  intro fuel
  induction fuel with
  | zero =>
      intro time ht htm _ hfuel
      push_cast at hfuel
      linarith
  | succ f ih =>
      intro time ht htm hclear hfuel
      obtain ⟨hd, hq, hrest⟩ := hclear htm
      rw [marchShadowAux, if_pos htm, if_neg (not_lt.mpr hd)]
      have hshadow : (if time = 0 then (1 : ℚ)
          else min 1
            (penumbra * GetMinDistanceAtPoint objects (ray.GetPositionAlongRay time)
              / time)) = 1 := by
        split
        · rfl
        · rename_i htz
          have htpos : 0 < time := lt_of_le_of_ne ht (Ne.symm htz)
          have hq' := hq.resolve_left htz
          rw [min_eq_left ((le_div_iff₀ htpos).mpr (by linarith))]
      rw [hshadow]
      push_cast at hfuel
      by_cases hnext :
          time + GetMinDistanceAtPoint objects (ray.GetPositionAlongRay time) < maxLength
      · refine ih _ (by linarith) hnext hrest ?_
        linarith
      · have hf1 : 1 ≤ f := by
          by_contra hf
          have hf0 : f = 0 := by omega
          rw [hf0] at hfuel
          push_cast at hfuel
          linarith
        obtain ⟨f', rfl⟩ : ∃ f', f = f' + 1 := ⟨f - 1, by omega⟩
        rw [marchShadowAux, if_neg hnext]

/-- C6: for every scene, ray, `maxLength` and penumbra constant `k > 0`,
whatever the soft-shadow march returns lies in `[0,1]`; the march returns
`0` as soon as the scene distance drops below `skMinLength`; every
completed march whose sampled points all keep `d ≥ skMinLength` (so the
ray runs on to `maxLength`) with the quotient `k·d/t` never below `1`
returns exactly `1`; and with sufficient fuel such a march does complete
and return `1` — in particular when no surface is approached. -/
theorem C6_shadow_march (objects : List RenderObject) (ray : CInfiniteRay)
    (maxLength penumbra : ℚ) (hp : 0 < penumbra) :
    (∀ (fuel : ℕ) (s : ℚ),
      CRenderScene.MarchShadowRay objects ray maxLength penumbra fuel = some s →
      0 ≤ s ∧ s ≤ 1) ∧
    (∀ (fuel : ℕ) (time shadow : ℚ), time < maxLength →
      GetMinDistanceAtPoint objects (ray.GetPositionAlongRay time) < skMinLength →
      marchShadowAux objects ray maxLength penumbra (fuel + 1) time shadow = some 0) ∧
    (∀ (fuel : ℕ) (s : ℚ),
      shadowClearAlong objects ray maxLength penumbra fuel 0 →
      CRenderScene.MarchShadowRay objects ray maxLength penumbra fuel = some s →
      s = 1) ∧
    (∀ fuel : ℕ, 1 ≤ fuel →
      shadowClearAlong objects ray maxLength penumbra fuel 0 →
      maxLength + skMinLength ≤ (fuel : ℚ) * skMinLength →
      CRenderScene.MarchShadowRay objects ray maxLength penumbra fuel = some 1) := by
  refine ⟨?_, ?_, ?_, ?_⟩
  · intro fuel s h
    exact marchShadowAux_mem_Icc objects ray maxLength penumbra hp fuel 0 1 s
      le_rfl (by norm_num) le_rfl h
  · intro fuel time shadow h1 h2
    rw [marchShadowAux, if_pos h1, if_pos h2]
  · intro fuel s hclear h
    exact marchShadowAux_clear_eq_one objects ray maxLength penumbra fuel 0 s
      le_rfl hclear h
  · intro fuel hfuel1 hclear hfuel
    by_cases hm : (0 : ℚ) < maxLength
    · exact marchShadowAux_clear_terminates objects ray maxLength penumbra fuel 0
        le_rfl hm hclear (by linarith)
    · obtain ⟨f, rfl⟩ : ∃ f, fuel = f + 1 := ⟨fuel - 1, by omega⟩
      rw [CRenderScene.MarchShadowRay, marchShadowAux, if_neg hm]

/-- C6 witness: in the empty scene (scene distance `skLargeNumber`
everywhere, so the single sampled point `t = 0` is clear) with
`maxLength = skMinLength`, `penumbra = 24` and fuel `2`, the march
completes and returns exactly `1` — derived through the
completed-run-returns-1 and the sufficient-fuel parts — and in a scene
containing `Custom(fun _ => 0)` the march returns `0` at once. -/
theorem C6_witness :
    CRenderScene.MarchShadowRay [] ⟨Vec3.zero, ⟨0, 0, 1⟩⟩ skMinLength 24 2 = some 1 ∧
    marchShadowAux [⟨fun _ => 0, Transform.identity⟩] ⟨Vec3.zero, ⟨0, 0, 1⟩⟩
      60 24 1 0 1 = some 0 := by
  have hD : ∀ p, GetMinDistanceAtPoint [] p = skLargeNumber := fun _ => rfl
  have hclear : shadowClearAlong [] ⟨Vec3.zero, ⟨0, 0, 1⟩⟩ skMinLength 24 2 0 := by
    intro _
    refine ⟨?_, Or.inl rfl, ?_⟩
    · rw [hD]
      norm_num [skMinLength, skLargeNumber]
    · intro habs
      rw [hD] at habs
      norm_num [skMinLength, skLargeNumber] at habs
  constructor
  · have hrun := (C6_shadow_march [] ⟨Vec3.zero, ⟨0, 0, 1⟩⟩ skMinLength 24
      (by norm_num)).2.2.2 2 (by omega) hclear
      (by push_cast; norm_num [skMinLength])
    have _hval := (C6_shadow_march [] ⟨Vec3.zero, ⟨0, 0, 1⟩⟩ skMinLength 24
      (by norm_num)).2.2.1 2 1 hclear hrun
    exact hrun
  · refine (C6_shadow_march [⟨fun _ => 0, Transform.identity⟩]
      ⟨Vec3.zero, ⟨0, 0, 1⟩⟩ 60 24 (by norm_num)).2.1 0 0 1 (by norm_num) ?_
    norm_num [GetMinDistanceAtPoint, RenderObject.GetTransformedDistanceToPoint,
      skMinLength, skLargeNumber]

/-! ## C7 — Cube distance -/

/-- Vectors over `ℝ` for the cube claim, whose Euclidean norm needs a
square root. -/
structure RVec3 where
  x : ℝ
  y : ℝ
  z : ℝ

/-- `CVector3f::Magnitude`: the square root of the dot product with
itself. -/
noncomputable def RVec3.magnitude (v : RVec3) : ℝ :=
  Real.sqrt (v.x * v.x + v.y * v.y + v.z * v.z)

/-- `CRenderCube::GetDistanceToPoint`. `mSize` holds the half-extents
(every constructor multiplies the given size by `0.5`): `x, y, z` are the
component-wise `|point| − mSize`, `d` the magnitude of their positive
parts, `du` the code's inside term
`max_val(max_val(min_val(x,0), min_val(y,0)), min_val(z,0))`. -/
noncomputable def CRenderCube.GetDistanceToPoint (mSize point : RVec3) : ℝ :=
  RVec3.magnitude
      ⟨max (|point.x| - mSize.x) 0, max (|point.y| - mSize.y) 0,
        max (|point.z| - mSize.z) 0⟩ +
    max (max (min (|point.x| - mSize.x) 0) (min (|point.y| - mSize.y) 0))
      (min (|point.z| - mSize.z) 0)

/-- The cube distance exactly as the spec words it: with
`d = |point| − half` component-wise, the distance is
`|max(d,0)| + min(max(d.x,d.y,d.z), 0)`. -/
noncomputable def cubeSpecDistance (half point : RVec3) : ℝ :=
  RVec3.magnitude
      ⟨max (|point.x| - half.x) 0, max (|point.y| - half.y) 0,
        max (|point.z| - half.z) 0⟩ +
    min (max (max (|point.x| - half.x) (|point.y| - half.y))
      (|point.z| - half.z)) 0

theorem max_of_mins_eq_min_of_max (x y z : ℝ) :
    max (max (min x 0) (min y 0)) (min z 0) = min (max (max x y) z) 0 := by
  rcases le_total x 0 with hx | hx <;> rcases le_total y 0 with hy | hy <;>
    rcases le_total z 0 with hz | hz <;>
    simp only [min_def, max_def] <;> split_ifs <;> linarith

/-- C7: the cube distance equals the spec's
`|max(d,0)| + min(max(d.x,d.y,d.z), 0)` for every half-extent vector and
every point — the code's inside term `max(min(dᵢ,0))` coincides with
`min(max(dᵢ), 0)` on all reals. -/
theorem C7_cube_distance (mSize point : RVec3) :
    CRenderCube.GetDistanceToPoint mSize point = cubeSpecDistance mSize point ∧
    ∀ x y z : ℝ,
      max (max (min x 0) (min y 0)) (min z 0) = min (max (max x y) z) 0 := by
  refine ⟨?_, max_of_mins_eq_min_of_max⟩
  unfold CRenderCube.GetDistanceToPoint cubeSpecDistance
  rw [max_of_mins_eq_min_of_max]

/-! ## C8, C9, C10 — renderer state -/

/-- `SWorkArea` (a tile); the atomic `mJobDone` is a plain `Bool` in the
sequential model. -/
structure SWorkArea where
  mMinX : ℕ
  mMinY : ℕ
  mMaxX : ℕ
  mMaxY : ℕ
  mJobDone : Bool
  deriving DecidableEq

/-- `CRenderScene` state as the scheduler claims touch it: the object
list and the scene size that `CRenderScene::SetSceneSize` forwards to the
camera (`CCamera::SetSceneSize` stores the two dimensions and recomputes
the derived pixel scale and basis from them and the camera's other stored
parameters; those derived fields are functions of the stored state and
are not tracked separately, and the lights play no part in the scheduler
claims). -/
structure SceneState where
  objects : List RenderObject
  sceneWidth : ℕ
  sceneHeight : ℕ

/-- `CRenderScene::SetSceneSize`. -/
def SceneState.SetSceneSize (s : SceneState) (width height : ℕ) : SceneState :=
  { s with sceneWidth := width, sceneHeight := height }

/-- `CRenderer` state: buffer dimensions (`uint32_t`, modelled as `ℕ`),
elapsed time, the pixel buffer as flat memory `ℕ → Color` indexed by
`y * mBufferWidth + x`, the scene, the tile list and the next-tile
cursor. The worker threads, mutexes and the condition variable are
concurrency machinery; the `notify_all` wake signal is surfaced as an
explicit flag by `RenderScene` below. -/
structure CRenderer where
  mBufferWidth : ℕ
  mBufferHeight : ℕ
  mTime : ℚ
  mBuffer : ℕ → Color
  mScene : SceneState
  mWorkAreas : List SWorkArea
  mCurrentWorkArea : ℕ

/-- `CRenderer::IsDone`: every tile in the current list is marked done. -/
def CRenderer.IsDone (r : CRenderer) : Bool :=
  r.mWorkAreas.all fun w => w.mJobDone

/-- `CRenderer::Update`: only when done — advance `mTime`, reset the
scene, invoke the scene builder (`NScene::BuildScene`, authored in
`RenderScene.inl` and passed here as a parameter, reset-then-populate
composed into building from scratch) with the new time, and apply the
current buffer size to the scene. -/
def CRenderer.Update (r : CRenderer) (BuildScene : ℚ → SceneState)
    (deltaTime : ℚ) : CRenderer :=
  if r.IsDone then
    { r with
        mTime := r.mTime + deltaTime,
        mScene := (BuildScene (r.mTime + deltaTime)).SetSceneSize
          r.mBufferWidth r.mBufferHeight }
  else r

/-- `skJobCoreMultiplier` (release build). -/
def skJobCoreMultiplier : ℕ := 5

/-- The induction variable of `for (v = 0; v < limit; v += step)`: the
values `i * step` for `i < ⌈limit / step⌉` (callers pass `step ≥ 1`). -/
def tileStarts (limit step : ℕ) : List ℕ :=
  (List.range ((limit + step - 1) / step)).map (· * step)

/-- The tile layout of `CRenderer::RenderScene`:
`jobCount = hardware_concurrency * skJobCoreMultiplier`,
`edgeJobCount = max_val(sqrtf(jobCount), 1)` (float square root truncated
to `uint32_t`, which is the integer square root `Nat.sqrt` for these
magnitudes), steps `max_val(1, dimension / edgeJobCount)`, and one tile
per `(x, y)` start pair clipped to the buffer edges, `mJobDone` false. -/
def buildWorkAreas (numProcessors width height : ℕ) : List SWorkArea :=
  (tileStarts height
      (max 1 (height / max (Nat.sqrt (numProcessors * skJobCoreMultiplier)) 1))).flatMap
    fun y =>
      (tileStarts width
          (max 1 (width / max (Nat.sqrt (numProcessors * skJobCoreMultiplier)) 1))).map
        fun x =>
          ⟨x, y,
            min width
              (x + max 1 (width / max (Nat.sqrt (numProcessors * skJobCoreMultiplier)) 1)),
            min height
              (y + max 1 (height / max (Nat.sqrt (numProcessors * skJobCoreMultiplier)) 1)),
            false⟩

/-- `CRenderer::RenderScene`: only when done — replace the tile list,
reset the cursor to `0`, and `notify_all` the workers; the returned flag
records whether the notification was issued. -/
def CRenderer.RenderScene (r : CRenderer) (numProcessors : ℕ) :
    CRenderer × Bool :=
  if r.IsDone then
    ({ r with
        mWorkAreas := buildWorkAreas numProcessors r.mBufferWidth r.mBufferHeight,
        mCurrentWorkArea := 0 }, true)
  else (r, false)

/-- `CRenderer::Cancel` (the part under the job mutex): mark every tile
from the cursor onward done, leaving the cursor past the end; the
subsequent busy-yield until `IsDone` only waits for in-flight workers and
touches no state. -/
def CRenderer.Cancel (r : CRenderer) : CRenderer :=
  { r with
      mWorkAreas := (r.mWorkAreas.enum.map fun p =>
        if r.mCurrentWorkArea ≤ p.1 then { p.2 with mJobDone := true } else p.2),
      mCurrentWorkArea := max r.mCurrentWorkArea r.mWorkAreas.length }

/-- `CRenderer::SetPixelColor`: write the color at flat index
`y * mBufferWidth + x` only when `x < mBufferWidth && y < mBufferHeight`.
This is the single pixel-write path; the worker loop and the resize fill
loop both go through it. -/
def CRenderer.SetPixelColor (r : CRenderer) (x y : ℕ) (color : Color) : CRenderer :=
  if x < r.mBufferWidth ∧ y < r.mBufferHeight then
    { r with mBuffer := Function.update r.mBuffer (y * r.mBufferWidth + x) color }
  else r

/-- The reallocation in `CRenderer::ResizeBuffer`: a fresh
`new uint8_t[sizeof(CColor4f) * width * height]` allocation has
indeterminate contents (represented by the explicit `junk` value), after
which the fill loop runs `SetPixelColor(x, y, (0.5, 0.6, 0.7))` for every
`x < width, y < height`, writing the fill color to every flat index
`y * width + x`, that is, to every index below `width * height`. -/
def resizeFill (junk : Color) (width height : ℕ) : ℕ → Color := fun i =>
  if i < width * height then ⟨1 / 2, 3 / 5, 7 / 10⟩ else junk

/-- `CRenderer::ResizeBuffer`: cancel if not done; if either dimension
differs, reallocate the buffer, store the new dimensions and fill;
finally always apply the requested size to the scene. -/
def CRenderer.ResizeBuffer (r : CRenderer) (junk : Color)
    (width height : ℕ) : CRenderer :=
  let r1 := if r.IsDone then r else r.Cancel
  let r2 :=
    if width ≠ r1.mBufferWidth ∨ height ≠ r1.mBufferHeight then
      { r1 with
          mBuffer := resizeFill junk width height,
          mBufferWidth := width,
          mBufferHeight := height }
    else r1
  { r2 with mScene := r2.mScene.SetSceneSize width height }

/-- C8: when some tile in the current list is not marked done,
`RenderScene` leaves the whole renderer state (tile list, cursor, buffer,
time, scene) unchanged and wakes no workers, and `Update` leaves the
whole renderer state (in particular the time scalar and the scene)
unchanged. -/
theorem C8_not_done_noop (r : CRenderer) (BuildScene : ℚ → SceneState)
    (numProcessors : ℕ) (deltaTime : ℚ) (h : r.IsDone = false) :
    r.RenderScene numProcessors = (r, false) ∧
    r.Update BuildScene deltaTime = r := by
  constructor <;> simp [CRenderer.RenderScene, CRenderer.Update, h]

/-- C8 witness: a renderer holding one unfinished tile; both operations
leave it untouched. -/
theorem C8_witness :
    CRenderer.RenderScene
        ⟨640, 480, 0, fun _ => Color.black, ⟨[], 640, 480⟩,
          [⟨0, 0, 1, 1, false⟩], 0⟩ 4 =
      (⟨640, 480, 0, fun _ => Color.black, ⟨[], 640, 480⟩,
          [⟨0, 0, 1, 1, false⟩], 0⟩, false) ∧
    CRenderer.Update
        ⟨640, 480, 0, fun _ => Color.black, ⟨[], 640, 480⟩,
          [⟨0, 0, 1, 1, false⟩], 0⟩ (fun _ => ⟨[], 0, 0⟩) 1 =
      ⟨640, 480, 0, fun _ => Color.black, ⟨[], 640, 480⟩,
        [⟨0, 0, 1, 1, false⟩], 0⟩ :=
  C8_not_done_noop _ (fun _ => ⟨[], 0, 0⟩) 4 1 rfl

/-- C9 counterexample: a completed 640×480 renderer resized to `0 × 10`.
The claim says a zero-dimension resize leaves the stored width and the
scene size unchanged; the code stores the zero width and applies the
zero size to the scene (the zero-size guard lives in the window
procedure, which never calls `ResizeBuffer` with a zero dimension). -/
theorem C9_counterexample :
    (CRenderer.ResizeBuffer
        ⟨640, 480, 0, fun _ => Color.black, ⟨[], 640, 480⟩, [], 0⟩
        Color.black 0 10).mBufferWidth = 0 ∧
    (CRenderer.ResizeBuffer
        ⟨640, 480, 0, fun _ => Color.black, ⟨[], 640, 480⟩, [], 0⟩
        Color.black 0 10).mScene.sceneWidth = 0 ∧
    (⟨640, 480, 0, fun _ => Color.black, ⟨[], 640, 480⟩, [], 0⟩ :
      CRenderer).mBufferWidth = 640 := by
  refine ⟨?_, ?_, rfl⟩ <;>
    simp [CRenderer.ResizeBuffer, CRenderer.IsDone, SceneState.SetSceneSize]

/-- C9 (amended): `ResizeBuffer` contains no zero-size guard — the
window procedure's size handler refuses zero dimensions before calling
it. For a renderer that is done: a request equal to the current size
leaves everything except the (re-applied) scene size unchanged; a
request differing in either dimension stores the requested dimensions —
zero or not — and the freshly filled buffer; and for every requested
size the scene size is set to the requested dimensions and no frame is
enqueued (tile list and next-tile cursor untouched). -/
theorem C9_resize_buffer (r : CRenderer) (junk : Color)
    (hdone : r.IsDone = true) :
    (r.ResizeBuffer junk r.mBufferWidth r.mBufferHeight =
      { r with mScene := r.mScene.SetSceneSize r.mBufferWidth r.mBufferHeight }) ∧
    (∀ width height, ¬ (width = r.mBufferWidth ∧ height = r.mBufferHeight) →
      (r.ResizeBuffer junk width height).mBufferWidth = width ∧
      (r.ResizeBuffer junk width height).mBufferHeight = height ∧
      (r.ResizeBuffer junk width height).mBuffer = resizeFill junk width height) ∧
    (∀ width height,
      (r.ResizeBuffer junk width height).mScene =
        r.mScene.SetSceneSize width height ∧
      (r.ResizeBuffer junk width height).mWorkAreas = r.mWorkAreas ∧
      (r.ResizeBuffer junk width height).mCurrentWorkArea = r.mCurrentWorkArea) := by
  refine ⟨?_, ?_, ?_⟩
  · simp [CRenderer.ResizeBuffer, hdone]
  · intro width height hne
    have hcond : width ≠ r.mBufferWidth ∨ height ≠ r.mBufferHeight := by tauto
    simp [CRenderer.ResizeBuffer, hdone, if_pos hcond]
  · intro width height
    refine ⟨?_, ?_, ?_⟩ <;> simp only [CRenderer.ResizeBuffer, hdone, if_true] <;>
      split <;> rfl

/-- C9 witness: the amended theorem at a completed 640×480 renderer:
resizing to the current size only reapplies the scene size; a resize to
320×200 stores the requested dimensions and the freshly filled buffer,
sets the scene size to 320×200, and enqueues nothing. -/
theorem C9_witness :
    CRenderer.ResizeBuffer
        ⟨640, 480, 0, fun _ => Color.black, ⟨[], 0, 0⟩, [⟨0, 0, 1, 1, true⟩], 1⟩
        Color.black 640 480 =
      ⟨640, 480, 0, fun _ => Color.black, ⟨[], 640, 480⟩, [⟨0, 0, 1, 1, true⟩], 1⟩ ∧
    (CRenderer.ResizeBuffer
        ⟨640, 480, 0, fun _ => Color.black, ⟨[], 0, 0⟩, [⟨0, 0, 1, 1, true⟩], 1⟩
        Color.black 320 200).mBufferWidth = 320 ∧
    (CRenderer.ResizeBuffer
        ⟨640, 480, 0, fun _ => Color.black, ⟨[], 0, 0⟩, [⟨0, 0, 1, 1, true⟩], 1⟩
        Color.black 320 200).mBuffer = resizeFill Color.black 320 200 ∧
    (CRenderer.ResizeBuffer
        ⟨640, 480, 0, fun _ => Color.black, ⟨[], 0, 0⟩, [⟨0, 0, 1, 1, true⟩], 1⟩
        Color.black 320 200).mScene = SceneState.SetSceneSize ⟨[], 0, 0⟩ 320 200 ∧
    (CRenderer.ResizeBuffer
        ⟨640, 480, 0, fun _ => Color.black, ⟨[], 0, 0⟩, [⟨0, 0, 1, 1, true⟩], 1⟩
        Color.black 320 200).mWorkAreas = [⟨0, 0, 1, 1, true⟩] :=
  ⟨(C9_resize_buffer
      ⟨640, 480, 0, fun _ => Color.black, ⟨[], 0, 0⟩, [⟨0, 0, 1, 1, true⟩], 1⟩
      Color.black rfl).1,
    ((C9_resize_buffer
      ⟨640, 480, 0, fun _ => Color.black, ⟨[], 0, 0⟩, [⟨0, 0, 1, 1, true⟩], 1⟩
      Color.black rfl).2.1 320 200 (by decide)).1,
    ((C9_resize_buffer
      ⟨640, 480, 0, fun _ => Color.black, ⟨[], 0, 0⟩, [⟨0, 0, 1, 1, true⟩], 1⟩
      Color.black rfl).2.1 320 200 (by decide)).2.2,
    ((C9_resize_buffer
      ⟨640, 480, 0, fun _ => Color.black, ⟨[], 0, 0⟩, [⟨0, 0, 1, 1, true⟩], 1⟩
      Color.black rfl).2.2 320 200).1,
    ((C9_resize_buffer
      ⟨640, 480, 0, fun _ => Color.black, ⟨[], 0, 0⟩, [⟨0, 0, 1, 1, true⟩], 1⟩
      Color.black rfl).2.2 320 200).2.1⟩

/-- C10: `SetPixelColor` writes the color to flat buffer cell
`y * width + x` exactly when `x < width` and `y < height` — and that cell
lies inside the `width * height` buffer — and leaves the renderer (in
particular the entire buffer) unchanged when `x` or `y` is out of range;
since every worker pixel write goes through `SetPixelColor`, no write
touches memory outside the buffer. -/
theorem C10_set_pixel_color (r : CRenderer) (x y : ℕ) (color : Color) :
    (x < r.mBufferWidth ∧ y < r.mBufferHeight →
      r.SetPixelColor x y color =
        { r with
            mBuffer := Function.update r.mBuffer (y * r.mBufferWidth + x) color } ∧
      y * r.mBufferWidth + x < r.mBufferWidth * r.mBufferHeight) ∧
    (¬ (x < r.mBufferWidth ∧ y < r.mBufferHeight) →
      r.SetPixelColor x y color = r) := by
  constructor
  · intro h
    refine ⟨by simp [CRenderer.SetPixelColor, h], ?_⟩
    calc y * r.mBufferWidth + x < (y + 1) * r.mBufferWidth := by
          rw [Nat.succ_mul]; omega
      _ ≤ r.mBufferHeight * r.mBufferWidth :=
          Nat.mul_le_mul_right _ h.2
      _ = r.mBufferWidth * r.mBufferHeight := Nat.mul_comm _ _
  · intro h
    simp [CRenderer.SetPixelColor, h]

/-- C10 witness: on a 2×2 renderer, the in-range write `(1,1)` updates
cell `3 < 4`, and the out-of-range write `(5,0)` is the identity. -/
theorem C10_witness :
    CRenderer.SetPixelColor
        ⟨2, 2, 0, fun _ => Color.black, ⟨[], 2, 2⟩, [], 0⟩ 1 1 Color.white =
      { mBufferWidth := 2, mBufferHeight := 2, mTime := 0,
        mBuffer := Function.update (fun _ => Color.black) 3 Color.white,
        mScene := ⟨[], 2, 2⟩, mWorkAreas := [], mCurrentWorkArea := 0 } ∧
    (1 * 2 + 1 : ℕ) < 2 * 2 ∧
    CRenderer.SetPixelColor
        ⟨2, 2, 0, fun _ => Color.black, ⟨[], 2, 2⟩, [], 0⟩ 5 0 Color.white =
      ⟨2, 2, 0, fun _ => Color.black, ⟨[], 2, 2⟩, [], 0⟩ := by
  obtain ⟨h1, h2⟩ := (C10_set_pixel_color
    ⟨2, 2, 0, fun _ => Color.black, ⟨[], 2, 2⟩, [], 0⟩ 1 1 Color.white).1
    (by decide)
  exact ⟨h1, h2,
    (C10_set_pixel_color ⟨2, 2, 0, fun _ => Color.black, ⟨[], 2, 2⟩, [], 0⟩
      5 0 Color.white).2 (by decide)⟩

end RayMarcher
